import Mathlib

/-! Verification of the MCP I Use client script (app.js): support-string
parsing, the data loader, the combination builder, row-group sorting,
and the interaction-layer state machines, shallowly embedded in Lean. -/

namespace McpIUse

/-- JS whitespace (the regex class \s): space, tab, line feed, vertical tab,
form feed, carriage return, and the Unicode space separators, line and
paragraph separators, NBSP, narrow NBSP, and BOM. -/
def jsWhitespace (c : Char) : Bool :=
  c = ' ' || c = '\t' || c = '\n' || c = '\r' ||
  c = Char.ofNat 11 || c = Char.ofNat 12 ||
  c = Char.ofNat 0x00a0 || c = Char.ofNat 0x1680 ||
  (0x2000 ≤ c.toNat && c.toNat ≤ 0x200a) ||
  c = Char.ofNat 0x2028 || c = Char.ofNat 0x2029 ||
  c = Char.ofNat 0x202f || c = Char.ofNat 0x205f ||
  c = Char.ofNat 0x3000 || c = Char.ofNat 0xfeff

/-- The regex character class [yandu] of app.js line 112. -/
def isSupportCode (c : Char) : Bool :=
  c = 'y' || c = 'a' || c = 'n' || c = 'd' || c = 'u'

/-- Result shape of parseSupport: a one-character support code and an
optional note reference (the digits captured after the hash sign). -/
structure SupportResult where
  code : Char
  noteRef : Option String
deriving DecidableEq, Repr

/-- Greedy consumption of \s* by the regex engine. No backtracking into the
star is ever needed: no JS whitespace character equals the hash sign, so a
shorter match of \s* can never let the rest of the pattern succeed. -/
def stripWs : List Char → List Char
  | [] => []
  | c :: rest => if jsWhitespace c then stripWs rest else c :: rest

/-- app.js parseSupport, lines 109-121, on the character list of a
non-empty string: match value against the anchored regex
^([yandu])\s*(?:#(\d+))?$ and on success return the captured code and
optional digit group; on failure return code u with no note. -/
def parseSupportChars (value : List Char) : SupportResult :=
  match value with
  | [] => ⟨'u', none⟩
  | c :: rest =>
    if isSupportCode c then
      match stripWs rest with
      | [] => ⟨c, none⟩
      | '#' :: ds =>
        if !ds.isEmpty && ds.all Char.isDigit then ⟨c, some (String.mk ds)⟩
        else ⟨'u', none⟩
      | _ => ⟨'u', none⟩
    else ⟨'u', none⟩

/-- app.js parseSupport including the falsiness guard of line 110: a null
or undefined value (none) and the empty string both take the early return
with code u and no note reference. -/
def parseSupport (value : Option String) : SupportResult :=
  match value with
  | none => ⟨'u', none⟩
  | some s => if s.data.isEmpty then ⟨'u', none⟩ else parseSupportChars s.data

/-- Space consumption for the grammar written in the spec, which allows
only literal spaces before the note reference. -/
def dropSpaces : List Char → List Char
  | [] => []
  | c :: rest => if c = ' ' then dropSpaces rest else c :: rest

/-- The support-value grammar exactly as the spec states it, as a second
definition to compare against the source: one code letter, optionally
followed by zero or more literal spaces and a hash sign with digits; no
other character, and in particular no trailing whitespace without a note
reference, is allowed. -/
def matchesSpecGrammar (s : List Char) : Bool :=
  match s with
  | [] => false
  | c :: rest =>
    isSupportCode c &&
    (match rest with
     | [] => true
     | _ =>
       match dropSpaces rest with
       | '#' :: ds => !ds.isEmpty && ds.all Char.isDigit
       | _ => false)

/-- Declarative acceptance of the regex of app.js line 112, namely
^([yandu])\s*(?:#(\d+))?$ : a support-code character, then JS whitespace,
then either nothing or a hash sign followed by one or more digits. -/
def CodeGrammar (s : List Char) : Prop :=
  ∃ c ws tail, s = c :: (ws ++ tail) ∧ isSupportCode c = true ∧
    ws.all jsWhitespace = true ∧
    (tail = [] ∨ ∃ ds, tail = '#' :: ds ∧ ds ≠ [] ∧ ds.all Char.isDigit = true)

theorem stripWs_eq_dropWhile (l : List Char) :
    stripWs l = l.dropWhile jsWhitespace := by
  induction l with
  | nil => rfl
  | cons c rest ih =>
    simp only [stripWs, List.dropWhile]
    by_cases h : jsWhitespace c <;> simp [h, ih]

theorem stripWs_append_of_all (ws rest : List Char)
    (h : ws.all jsWhitespace = true) :
    stripWs (ws ++ rest) = stripWs rest := by
  induction ws with
  | nil => rfl
  | cons c tl ih =>
    simp only [List.all_cons, Bool.and_eq_true] at h
    simpa [stripWs, h.1] using ih h.2

theorem hash_not_ws : jsWhitespace '#' = false := by decide

theorem parseSupportChars_code_only (c : Char) (ws : List Char)
    (hc : isSupportCode c = true) (hws : ws.all jsWhitespace = true) :
    parseSupportChars (c :: ws) = ⟨c, none⟩ := by
  have hstrip : stripWs ws = [] := by
    have := stripWs_append_of_all ws [] hws
    simpa using this
  simp [parseSupportChars, hc, hstrip]

theorem parseSupportChars_with_note (c : Char) (ws ds : List Char)
    (hc : isSupportCode c = true) (hws : ws.all jsWhitespace = true)
    (hne : ds ≠ []) (hdig : ds.all Char.isDigit = true) :
    parseSupportChars (c :: (ws ++ '#' :: ds)) = ⟨c, some (String.mk ds)⟩ := by
  simp only [parseSupportChars, hc, if_true]
  rw [stripWs_append_of_all ws _ hws]
  simp only [stripWs, hash_not_ws, Bool.false_eq_true, if_false]
  have hcond : (!ds.isEmpty && ds.all Char.isDigit) = true := by
    cases ds with
    | nil => exact absurd rfl hne
    | cons d tl => simp [List.isEmpty, hdig]
  rw [hcond]
  rfl

theorem parseSupportChars_cases (l : List Char) :
    parseSupportChars l = ⟨'u', none⟩ ∨
    (∃ c ws, l = c :: ws ∧ isSupportCode c = true ∧
      ws.all jsWhitespace = true ∧ parseSupportChars l = ⟨c, none⟩) ∨
    (∃ c ws ds, l = c :: (ws ++ '#' :: ds) ∧ isSupportCode c = true ∧
      ws.all jsWhitespace = true ∧ ds ≠ [] ∧ ds.all Char.isDigit = true ∧
      parseSupportChars l = ⟨c, some (String.mk ds)⟩) := by
  cases l with
  | nil => exact Or.inl rfl
  | cons c rest =>
    by_cases hc : isSupportCode c = true
    · cases hstrip : stripWs rest with
      | nil =>
        have hall : rest.all jsWhitespace = true := by
          rw [stripWs_eq_dropWhile] at hstrip
          rw [List.all_eq_true]
          exact List.dropWhile_eq_nil_iff.mp hstrip
        exact Or.inr (Or.inl ⟨c, rest, rfl, hc, hall,
          parseSupportChars_code_only c rest hc hall⟩)
      | cons c2 tl =>
        by_cases hh : c2 = '#'
        · subst hh
          by_cases hd : (!tl.isEmpty && tl.all Char.isDigit) = true
          · have hne : tl ≠ [] := by
              cases tl with
              | nil => simp at hd
              | cons a b => simp
            have hdig : tl.all Char.isDigit = true := by
              rw [Bool.and_eq_true] at hd
              exact hd.2
            have hdecomp : rest = rest.takeWhile jsWhitespace ++ '#' :: tl := by
              conv_lhs => rw [← List.takeWhile_append_dropWhile jsWhitespace rest]
              rw [← stripWs_eq_dropWhile, hstrip]
            have hws : (rest.takeWhile jsWhitespace).all jsWhitespace = true :=
              List.all_takeWhile
            refine Or.inr (Or.inr ⟨c, rest.takeWhile jsWhitespace, tl, ?_, hc,
              hws, hne, hdig, ?_⟩)
            · rw [← hdecomp]
            · rw [show (c :: rest) = c :: (rest.takeWhile jsWhitespace ++ '#' :: tl) by
                rw [← hdecomp]]
              exact parseSupportChars_with_note c _ tl hc hws hne hdig
          · refine Or.inl ?_
            simp only [parseSupportChars, hc, if_true, hstrip]
            simp [hd]
        · refine Or.inl ?_
          simp only [parseSupportChars, hc, if_true, hstrip]
          split
          · rename_i heq
            exact absurd heq.symm (by simp)
          · rename_i ds heq
            obtain ⟨h1, _⟩ := List.cons.inj heq
            exact absurd h1 hh
          · rfl
    · refine Or.inl ?_
      simp only [parseSupportChars]
      rw [if_neg hc]

theorem isSupportCode_iff (c : Char) :
    isSupportCode c = true ↔
      (c = 'y' ∨ c = 'a' ∨ c = 'n' ∨ c = 'u' ∨ c = 'd') := by
  simp only [isSupportCode, Bool.or_eq_true, decide_eq_true_eq]
  tauto

theorem parseSupport_eq_chars (s : String) (hs : s.data ≠ []) :
    parseSupport (some s) = parseSupportChars s.data := by
  simp [parseSupport, List.isEmpty_iff, hs]

/-- C1 counterexample: the string of a support code followed by a single
trailing space is rejected by the grammar the spec states, yet parseSupport
returns the non-u code y for it, not the unknown result. -/
theorem C1_spec_grammar_counterexample :
    matchesSpecGrammar ("y ".data) = false ∧
    parseSupport (some "y ") = ⟨'y', none⟩ ∧
    parseSupport (some "y ") ≠ ⟨'u', none⟩ := by
  refine ⟨by decide, ?_, ?_⟩ <;> decide

/-- C1 (amended): for every input (including absent values and the empty
string), parseSupport returns a code in the set y,a,n,u,d and either no
note reference or a non-empty all-digit one; a non-u code or a note
reference arises only when the value matches the source regex
^([yandu])\s*(?:#(\d+))?$ — which, unlike the grammar written in the spec,
permits any JS whitespace after the code even when no note reference
follows — and any value not matching that regex, or absent, or empty,
yields exactly code u with no note reference. -/
theorem C1_parseSupport_grammar (v : Option String) :
    ((parseSupport v).code = 'y' ∨ (parseSupport v).code = 'a' ∨
      (parseSupport v).code = 'n' ∨ (parseSupport v).code = 'u' ∨
      (parseSupport v).code = 'd') ∧
    (∀ ds, (parseSupport v).noteRef = some ds →
      ds.data ≠ [] ∧ ds.data.all Char.isDigit = true) ∧
    (parseSupport v ≠ ⟨'u', none⟩ → ∃ s, v = some s ∧ CodeGrammar s.data) ∧
    (∀ s, v = some s → ¬ CodeGrammar s.data → parseSupport v = ⟨'u', none⟩) ∧
    ((v = none ∨ v = some "") → parseSupport v = ⟨'u', none⟩) ∧
    (∀ s c ws, v = some s → s.data = c :: ws → isSupportCode c = true →
      ws.all jsWhitespace = true → parseSupport v = ⟨c, none⟩) ∧
    (∀ s c ws ds, v = some s → s.data = c :: (ws ++ '#' :: ds) →
      isSupportCode c = true → ws.all jsWhitespace = true → ds ≠ [] →
      ds.all Char.isDigit = true → parseSupport v = ⟨c, some (String.mk ds)⟩) := by
  have hmain : parseSupport v = ⟨'u', none⟩ ∨
      (∃ s, v = some s ∧ s.data ≠ [] ∧ parseSupport v = parseSupportChars s.data) := by
    cases v with
    | none => exact Or.inl rfl
    | some s =>
      rcases eq_or_ne s.data [] with h | h
      · exact Or.inl (by simp [parseSupport, h])
      · exact Or.inr ⟨s, rfl, h, parseSupport_eq_chars s h⟩
  have hforward : parseSupport v ≠ ⟨'u', none⟩ →
      ∃ s, v = some s ∧ CodeGrammar s.data := by
    intro h
    rcases hmain with h0 | ⟨s, hv, hne, heq⟩
    · exact absurd h0 h
    · refine ⟨s, hv, ?_⟩
      rw [heq] at h
      rcases parseSupportChars_cases s.data with h1 | ⟨c, ws, hdec, hc, hws, h1⟩ |
        ⟨c, ws, ds, hdec, hc, hws, hne2, hdig, h1⟩
      · exact absurd h1 h
      · exact ⟨c, ws, [], by simpa using hdec, hc, hws, Or.inl rfl⟩
      · exact ⟨c, ws, '#' :: ds, hdec, hc, hws, Or.inr ⟨ds, rfl, hne2, hdig⟩⟩
  refine ⟨?_, ?_, hforward, ?_, ?_, ?_, ?_⟩
  · rcases hmain with h | ⟨s, hv, hne, heq⟩
    · rw [h]; tauto
    · rw [heq]
      rcases parseSupportChars_cases s.data with h1 | ⟨c, ws, _, hc, _, h1⟩ |
        ⟨c, ws, ds, _, hc, _, _, _, h1⟩
      · rw [h1]; tauto
      · rw [h1]; exact (isSupportCode_iff c).mp hc
      · rw [h1]; exact (isSupportCode_iff c).mp hc
  · intro ds hds
    rcases hmain with h | ⟨s, hv, hne, heq⟩
    · rw [h] at hds; exact absurd hds (by simp)
    · rw [heq] at hds
      rcases parseSupportChars_cases s.data with h1 | ⟨c, ws, _, _, _, h1⟩ |
        ⟨c, ws, ds2, _, _, _, hne2, hdig2, h1⟩
      · rw [h1] at hds; exact absurd hds (by simp)
      · rw [h1] at hds; exact absurd hds (by simp)
      · rw [h1] at hds
        have : String.mk ds2 = ds := by simpa using hds
        subst this
        exact ⟨hne2, hdig2⟩
  · intro s hv hng
    by_contra hne
    obtain ⟨s2, hv2, hg⟩ := hforward hne
    have hs : s2 = s := by rw [hv] at hv2; exact (Option.some.inj hv2).symm
    subst hs
    exact hng hg
  · intro h
    rcases h with h | h
    · rw [h]; rfl
    · rw [h]; rfl
  · intro s c ws hv hdec hc hws
    subst hv
    rw [parseSupport_eq_chars s (by rw [hdec]; simp), hdec]
    exact parseSupportChars_code_only c ws hc hws
  · intro s c ws ds hv hdec hc hws hne hdig
    subst hv
    rw [parseSupport_eq_chars s (by rw [hdec]; simp), hdec]
    exact parseSupportChars_with_note c ws ds hc hws hne hdig

/-- C1 witness: the theorem applied to the concrete input of the spec
example, a code n with a note reference 1. -/
theorem C1_parseSupport_grammar_witness :
    parseSupport (some "n #1") = ⟨'n', some (String.mk ['1'])⟩ :=
  (C1_parseSupport_grammar (some "n #1")).2.2.2.2.2.2 "n #1" 'n' [' '] ['1']
    rfl (by decide) (by decide) (by decide) (by decide) (by decide)

/-- An AI-client record as loaded from data/ai-clients: the fields the
script reads (display name, and the per-interface native display names
used for the sentinel native client). -/
structure AIClient where
  name : String
  native_names : Option (List (String × String))
deriving DecidableEq, Repr

/-- A developer-interface record as loaded from data/ides: the fields the
script reads (display name and the compatibility list, which may be
absent — the script guards every access with a default empty list). -/
structure Ide where
  name : String
  compatible_ai_clients : Option (List String)
deriving DecidableEq, Repr

/-- A source entry of a feature document: either a bare URL string or a
structured record with url and evidence fields, each possibly absent. -/
inductive SourceEntry where
  | str (s : String)
  | obj (url : Option String) (evidence : Option String)
deriving DecidableEq, Repr

/-- A feature record as loaded from data/features: the fields the script
reads. -/
structure Feature where
  id : String
  title : Option String
  spec_url : String
  stats : Option (List (String × String))
  sources : Option (List (String × SourceEntry))
  notes : Option (List (String × String))
deriving DecidableEq, Repr

/-- One element of the combos array built by getClientCombinations. -/
structure Combination where
  key : String
  ide : Ide
  ideId : String
  aiClient : AIClient
  aiClientId : String
deriving DecidableEq, Repr

/-- IDE_FILES, app.js lines 22-27. -/
def IDE_FILES : List String :=
  ["vscode", "cursor", "visual-studio", "jetbrains", "android-studio",
   "xcode", "windsurf", "zed", "neovim", "emacs", "void", "pearai",
   "firebase-studio", "gemini-cli", "jules", "lovable", "claude-desktop",
   "claude-code", "codex-cli", "amp"]

/-- AI_CLIENT_FILES, app.js lines 29-34. -/
def AI_CLIENT_FILES : List String :=
  ["github-copilot", "cline", "continue", "cody", "tabnine", "codeium",
   "amazonq", "gemini-code-assist", "amp", "augment", "native", "avante",
   "codecompanion", "gptel", "ellama", "claude-code", "codex-cli"]

/-- FEATURE_FILES, app.js lines 36-38. -/
def FEATURE_FILES : List String :=
  ["tools", "resources", "prompts", "sampling", "elicitation", "roots"]

/-- Body of the inner loop of getClientCombinations (lines 91-102): look
the client identifier up in the aiClients map and, when it is known, push
one combination with key ideId + aiClientId onto the combos array. -/
def pushCombo (aiClients : List (String × AIClient)) (ideId : String)
    (ide : Ide) (cs : List Combination) (aiClientId : String) :
    List Combination :=
  match aiClients.lookup aiClientId with
  | some aiClient =>
      cs ++ [⟨ideId ++ "+" ++ aiClientId, ide, ideId, aiClient, aiClientId⟩]
  | none => cs

/-- app.js getClientCombinations, lines 87-106. The ides argument is the
global ides object as an association list in its insertion order, which is
what Object.entries iterates; aiClients is the global aiClients object,
used only for keyed lookup. -/
def getClientCombinations (ides : List (String × Ide))
    (aiClients : List (String × AIClient)) : List Combination :=
  ides.foldl
    (fun combos p =>
      (p.2.compatible_ai_clients.getD []).foldl (pushCombo aiClients p.1 p.2)
        combos)
    []

/-- loadAllData, lines 56-59: one fetch task per IDE_FILES entry, and the
assignment ides[id] = data runs when that fetch settles successfully, so
the insertion order of the ides object is the order in which the fetches
completed — some permutation of IDE_FILES, not necessarily IDE_FILES
itself — and an entry exists exactly for the resources that loaded. -/
def loadIdes (completionOrder : List String) (result : String → Option Ide) :
    List (String × Ide) :=
  completionOrder.filterMap (fun id => (result id).map (fun d => (id, d)))

theorem foldl_append_shift {α β : Type} (f : List α → β → List α)
    (hf : ∀ acc x, f acc x = acc ++ f [] x) :
    ∀ (l : List β) (acc : List α), l.foldl f acc = acc ++ l.foldl f []
  | [], acc => by simp
  | x :: l, acc => by
    rw [List.foldl_cons, List.foldl_cons, foldl_append_shift f hf l (f acc x),
      foldl_append_shift f hf l (f [] x), hf acc x, List.append_assoc]

theorem pushCombo_shift (aiClients : List (String × AIClient))
    (ideId : String) (ide : Ide) (acc : List Combination) (cid : String) :
    pushCombo aiClients ideId ide acc cid =
      acc ++ pushCombo aiClients ideId ide [] cid := by
  unfold pushCombo
  cases aiClients.lookup cid <;> simp

theorem inner_foldl_spec (aiClients : List (String × AIClient))
    (ideId : String) (ide : Ide) (l : List String) :
    l.foldl (pushCombo aiClients ideId ide) [] =
      l.filterMap (fun cid => (aiClients.lookup cid).map
        (fun c => ⟨ideId ++ "+" ++ cid, ide, ideId, c, cid⟩)) := by
  induction l with
  | nil => rfl
  | cons cid l ih =>
    rw [List.foldl_cons,
      foldl_append_shift (pushCombo aiClients ideId ide)
        (pushCombo_shift aiClients ideId ide) l
        (pushCombo aiClients ideId ide [] cid),
      ih, List.filterMap_cons]
    unfold pushCombo
    cases aiClients.lookup cid <;> simp

/-- C2 (amended): getClientCombinations emits, following the insertion
order of the ides map (the completion order of the IDE fetches, not the
fixed IDE_FILES order) and within each interface the order of its
compatibility list, exactly one combination with key ideId + aiClientId
for every listed client identifier that resolves in the aiClients map. -/
theorem C2_combination_order (ides : List (String × Ide))
    (aiClients : List (String × AIClient)) :
    getClientCombinations ides aiClients =
      ides.flatMap (fun p =>
        (p.2.compatible_ai_clients.getD []).filterMap
          (fun cid => (aiClients.lookup cid).map
            (fun c => ⟨p.1 ++ "+" ++ cid, p.2, p.1, c, cid⟩))) ∧
    ∀ combo ∈ getClientCombinations ides aiClients,
      aiClients.lookup combo.aiClientId = some combo.aiClient ∧
      combo.key = combo.ideId ++ "+" ++ combo.aiClientId := by
  have houter : ∀ (l : List (String × Ide)),
      getClientCombinations l aiClients =
        l.flatMap (fun p =>
          (p.2.compatible_ai_clients.getD []).filterMap
            (fun cid => (aiClients.lookup cid).map
              (fun c => ⟨p.1 ++ "+" ++ cid, p.2, p.1, c, cid⟩))) := by
    intro l
    induction l with
    | nil => rfl
    | cons p l ih =>
      unfold getClientCombinations at ih ⊢
      rw [List.foldl_cons, List.flatMap_cons, ← ih]
      rw [foldl_append_shift _
        (fun acc x => by
          exact foldl_append_shift (pushCombo aiClients x.1 x.2)
            (pushCombo_shift aiClients x.1 x.2)
            (x.2.compatible_ai_clients.getD []) acc) l]
      rw [inner_foldl_spec]
  refine ⟨houter ides, ?_⟩
  intro combo hc
  rw [houter ides] at hc
  rw [List.mem_flatMap] at hc
  obtain ⟨p, _, hm⟩ := hc
  rw [List.mem_filterMap] at hm
  obtain ⟨cid, _, hm⟩ := hm
  cases hl : aiClients.lookup cid with
  | none => rw [hl] at hm; exact absurd hm (by simp)
  | some c =>
    rw [hl] at hm
    have : (⟨p.1 ++ "+" ++ cid, p.2, p.1, c, cid⟩ : Combination) = combo := by
      simpa using hm
    subst this
    exact ⟨hl, rfl⟩

/-- A concrete fetch-completion order in which the cursor resource settles
before the vscode resource; every other IDE resource follows. -/
def order0 : List String :=
  "cursor" :: "vscode" ::
    IDE_FILES.filter (fun id => !(id == "vscode") && !(id == "cursor"))

/-- Concrete load results: only vscode and cursor load, each compatible
with the github-copilot client. -/
def result0 : String → Option Ide := fun id =>
  if id = "vscode" then some ⟨"Visual Studio Code", some ["github-copilot"]⟩
  else if id = "cursor" then some ⟨"Cursor", some ["github-copilot"]⟩
  else none

def aiClients0 : List (String × AIClient) :=
  [("github-copilot", ⟨"GitHub Copilot", none⟩)]

/-- C2 counterexample: a legitimate completion order (a permutation of
IDE_FILES) in which cursor settles first makes getClientCombinations emit
the cursor combination before the vscode one, while IDE_FILES enumerates
vscode strictly before cursor — so emission does not follow the fixed
IDE_FILES order. -/
theorem C2_order_counterexample :
    order0.isPerm IDE_FILES = true ∧
    (getClientCombinations (loadIdes order0 result0) aiClients0).map
        Combination.key =
      ["cursor+github-copilot", "vscode+github-copilot"] ∧
    IDE_FILES.indexOf "vscode" < IDE_FILES.indexOf "cursor" := by
  refine ⟨by decide, by decide, by decide⟩

/-- C2 witness: the amended theorem applied to the concrete loaded maps of
the counterexample scenario, giving the key of the emitted cursor
combination. -/
theorem C2_combination_order_witness :
    aiClients0.lookup "github-copilot" =
      some (⟨"cursor+github-copilot", ⟨"Cursor", some ["github-copilot"]⟩,
        "cursor", ⟨"GitHub Copilot", none⟩, "github-copilot"⟩ :
          Combination).aiClient ∧
    (⟨"cursor+github-copilot", ⟨"Cursor", some ["github-copilot"]⟩,
        "cursor", ⟨"GitHub Copilot", none⟩, "github-copilot"⟩ :
          Combination).key = "cursor" ++ "+" ++ "github-copilot" :=
  (C2_combination_order (loadIdes order0 result0) aiClients0).2
    ⟨"cursor+github-copilot", ⟨"Cursor", some ["github-copilot"]⟩,
      "cursor", ⟨"GitHub Copilot", none⟩, "github-copilot"⟩ (by decide)

/-- The module-level mutable maps of app.js that the combination builder
reads. -/
structure AppState where
  ides : List (String × Ide)
  aiClients : List (String × AIClient)
deriving DecidableEq, Repr

/-- getClientCombinations as a transformer of the module state: the loop
threads the state through every iteration, so an assignment to either map
would show up in the returned state; the body of lines 90-103 only reads
the maps and pushes onto the local combos array. -/
def runGetClientCombinations (st : AppState) :
    AppState × List Combination :=
  st.ides.foldl
    (fun acc p =>
      (acc.1,
        (p.2.compatible_ai_clients.getD []).foldl
          (pushCombo acc.1.aiClients p.1 p.2) acc.2))
    (st, [])

theorem runGetClientCombinations_spec (st : AppState) :
    runGetClientCombinations st =
      (st, getClientCombinations st.ides st.aiClients) := by
  unfold runGetClientCombinations getClientCombinations
  have key : ∀ (l : List (String × Ide)) (acc : List Combination),
      l.foldl
          (fun acc2 p =>
            (acc2.1,
              (p.2.compatible_ai_clients.getD []).foldl
                (pushCombo acc2.1.aiClients p.1 p.2) acc2.2))
          (st, acc) =
        (st,
          l.foldl
            (fun cs p =>
              (p.2.compatible_ai_clients.getD []).foldl
                (pushCombo st.aiClients p.1 p.2) cs)
            acc) := by
    intro l
    induction l with
    | nil => intro acc; rfl
    | cons p l ih => intro acc; rw [List.foldl_cons, List.foldl_cons, ih]
  exact key st.ides []

/-- C6: the combination builder is deterministic, idempotent, and free of
mutation: an invocation returns the module state unchanged, and a second
invocation on the state returned by the first yields the identical ordered
combination list, with the same keys in the same positions. -/
theorem C6_builder_pure (st : AppState) :
    (runGetClientCombinations st).1 = st ∧
    (runGetClientCombinations st).2 =
      getClientCombinations st.ides st.aiClients ∧
    (runGetClientCombinations ((runGetClientCombinations st).1)).2 =
      (runGetClientCombinations st).2 ∧
    ((runGetClientCombinations ((runGetClientCombinations st).1)).2).map
        Combination.key =
      ((runGetClientCombinations st).2).map Combination.key := by
  rw [runGetClientCombinations_spec]
  rw [runGetClientCombinations_spec]
  exact ⟨rfl, rfl, rfl, rfl⟩

/-- Outcome of one fetch: either a settled HTTP response with a status and
a parse result for its body (none when the body is not valid JSON), or a
network-level failure. -/
inductive FetchResult (α : Type) where
  | success (status : Nat) (body : Option α)
  | networkError
deriving DecidableEq, Repr

/-- response.ok: status in the inclusive range 200 to 299. -/
def responseOk (status : Nat) : Bool := 200 ≤ status && status ≤ 299

/-- app.js loadJSON, lines 42-51: a non-ok status or a network or parse
failure is caught and turned into null; only an ok response with a parsed
body yields data. -/
def loadJSON {α : Type} : FetchResult α → Option α
  | FetchResult.success status body =>
      if responseOk status then body else none
  | FetchResult.networkError => none

/-- The features object after loadAllData (lines 68-71): every FEATURE_FILES
resource is fetched, and features[id] is assigned exactly when that
resource loaded; the barrier of lines 78-83 waits for every fetch to
settle, so the map reflects the outcome of all of them. -/
def featuresMapOf {α : Type} (fetchFeature : String → FetchResult α)
    (id : String) : Option α :=
  if FEATURE_FILES.contains id then loadJSON (fetchFeature id) else none

/-- renderFeaturesMatrix line 263: the ordered feature list is
FEATURE_FILES mapped through the features object with the absent entries
filtered out, so the columns are exactly the loaded features in
FEATURE_FILES order. -/
def featureColumns {α : Type} (fetchFeature : String → FetchResult α) :
    List α :=
  (FEATURE_FILES.map (featuresMapOf fetchFeature)).reduceOption

theorem featureColumns_eq {α : Type} (fetchFeature : String → FetchResult α) :
    featureColumns fetchFeature =
      FEATURE_FILES.filterMap (fun id => loadJSON (fetchFeature id)) := by
  unfold featureColumns List.reduceOption
  rw [List.filterMap_map]
  apply List.filterMap_congr
  intro id hid
  simp only [Function.comp, featuresMapOf, id_eq]
  rw [if_pos (List.elem_eq_true_of_mem hid)]

/-- C3: a failing fetch (network error, non-success status, or unparseable
body) is absorbed into an absent resource; the other resources are
unaffected by one resource's outcome; and the feature matrix renders its
columns exactly for the features that did load, in FEATURE_FILES order —
in particular a loaded tools feature still yields a column when the roots
resource failed, and no column comes from roots. -/
theorem C3_loader_resilience {α : Type} (fetchFeature : String → FetchResult α)
    (hroots : loadJSON (fetchFeature "roots") = none)
    (t : α) (htools : loadJSON (fetchFeature "tools") = some t) :
    (∀ (status : Nat) (body : Option α), responseOk status = false →
      loadJSON (FetchResult.success status body) = none) ∧
    loadJSON (FetchResult.networkError : FetchResult α) = none ∧
    (∀ fetch2 : String → FetchResult α,
      (∀ id, id ≠ "roots" → fetch2 id = fetchFeature id) →
      ∀ id, id ≠ "roots" → featuresMapOf fetch2 id = featuresMapOf fetchFeature id) ∧
    featureColumns fetchFeature =
      FEATURE_FILES.filterMap (fun id => loadJSON (fetchFeature id)) ∧
    t ∈ featureColumns fetchFeature ∧
    (∀ f ∈ featureColumns fetchFeature,
      ∃ id, id ∈ FEATURE_FILES ∧ id ≠ "roots" ∧
        loadJSON (fetchFeature id) = some f) := by
  refine ⟨?_, rfl, ?_, featureColumns_eq fetchFeature, ?_, ?_⟩
  · intro status body hstatus
    simp [loadJSON, hstatus]
  · intro fetch2 hagree id hid
    unfold featuresMapOf
    rw [hagree id hid]
  · rw [featureColumns_eq fetchFeature]
    rw [List.mem_filterMap]
    exact ⟨"tools", by decide, htools⟩
  · intro f hf
    rw [featureColumns_eq fetchFeature, List.mem_filterMap] at hf
    obtain ⟨id, hid, hload⟩ := hf
    refine ⟨id, hid, ?_, hload⟩
    intro h
    rw [h, hroots] at hload
    exact absurd hload (by simp)

/-- Concrete fetch outcomes for the C3 witness: tools parses with an ok
status, resources 404s, and everything else fails at network level. -/
def fetch0 : String → FetchResult Nat := fun id =>
  if id = "tools" then FetchResult.success 200 (some 7)
  else if id = "resources" then FetchResult.success 404 (some 3)
  else FetchResult.networkError

/-- C3 witness: the theorem applied to the concrete outcomes fetch0, where
the roots fetch fails and the tools fetch loads the value 7. -/
theorem C3_loader_resilience_witness : 7 ∈ featureColumns fetch0 :=
  (C3_loader_resilience fetch0 (by decide) 7 (by decide)).2.2.2.2.1

/-- renderFeaturesMatrix lines 266-276: combos are grouped by ideId into an
object whose keys appear in first-occurrence order; this is that key
order. -/
def groupKeys (combos : List Combination) : List String :=
  combos.foldl
    (fun ks c => if ks.contains c.ideId then ks else ks ++ [c.ideId]) []

/-- The combos collected for one group, in emission order (each combo is
pushed onto its group's array as the grouping loop meets it). -/
def groupCombos (combos : List Combination) (ideId : String) :
    List Combination :=
  combos.filter (fun c => c.ideId == ideId)

/-- The ide record stored on a group is the one carried by the first combo
that created the group; its display name feeds the sort comparator. -/
def groupIdeName (combos : List Combination) (ideId : String) : String :=
  match combos.find? (fun c => c.ideId == ideId) with
  | some c => c.ide.name
  | none => ""

def lowerChars (s : String) : List Char := s.data.map Char.toLower

/-- Lexicographic three-way comparison of character lists by code point. -/
def charListCompare : List Char → List Char → Ordering
  | [], [] => Ordering.eq
  | [], _ :: _ => Ordering.lt
  | _ :: _, [] => Ordering.gt
  | a :: as, b :: bs =>
    if a.toNat < b.toNat then Ordering.lt
    else if b.toNat < a.toNat then Ordering.gt
    else charListCompare as bs

/-- Modelled from the spec: the host String.prototype.localeCompare used by
the row-group comparator of app.js line 297 is not in the repository; the
spec describes the tie-break as case- and locale-aware lexicographic
comparison of the display names, modelled here as lexicographic comparison
of the lowercased character sequences, returning a negative, zero, or
positive number. -/
def localeCompare (a b : String) : Int :=
  match charListCompare (lowerChars a) (lowerChars b) with
  | Ordering.lt => -1
  | Ordering.eq => 0
  | Ordering.gt => 1

/-- The comparator of renderFeaturesMatrix lines 294-298: combination count
of b minus that of a (descending count), and on a zero difference the
localeCompare of the two interface display names. -/
def groupComparator (combos : List Combination) (a b : String) : Int :=
  if ((groupCombos combos b).length : Int) -
      ((groupCombos combos a).length : Int) ≠ 0 then
    ((groupCombos combos b).length : Int) -
      ((groupCombos combos a).length : Int)
  else localeCompare (groupIdeName combos a) (groupIdeName combos b)

/-- Array.prototype.sort over the group keys: a stable, in-place sort that
places a before b whenever the comparator is non-positive, modelled with
the stable mergeSort. -/
def sortedGroupKeys (combos : List Combination) : List String :=
  (groupKeys combos).mergeSort
    (fun a b => decide (groupComparator combos a b ≤ 0))

theorem clc_swap (a : List Char) :
    ∀ b, charListCompare b a = (charListCompare a b).swap := by
  induction a with
  | nil => intro b; cases b <;> rfl
  | cons x as ih =>
    intro b
    cases b with
    | nil => rfl
    | cons y bs =>
      simp only [charListCompare]
      by_cases h1 : x.toNat < y.toNat
      · have h2 : ¬ y.toNat < x.toNat := by omega
        simp [h1, h2, Ordering.swap]
      · by_cases h2 : y.toNat < x.toNat
        · simp [h1, h2, Ordering.swap]
        · simp [h1, h2, ih bs]

theorem clc_ne_gt_trans (a : List Char) :
    ∀ b c, charListCompare a b ≠ Ordering.gt →
      charListCompare b c ≠ Ordering.gt →
      charListCompare a c ≠ Ordering.gt := by
  induction a with
  | nil =>
    intro b c _ _
    cases c <;> simp [charListCompare]
  | cons x as ih =>
    intro b c hab hbc
    cases b with
    | nil => simp [charListCompare] at hab
    | cons y bs =>
      cases c with
      | nil => simp [charListCompare] at hbc
      | cons z cs =>
        simp only [charListCompare] at hab hbc ⊢
        by_cases hxy : x.toNat < y.toNat
        · by_cases hyz : y.toNat < z.toNat
          · simp [Nat.lt_trans hxy hyz]
          · by_cases hzy : z.toNat < y.toNat
            · simp [hyz, hzy] at hbc
            · have hxz : x.toNat < z.toNat := by omega
              simp [hxz]
        · by_cases hyx : y.toNat < x.toNat
          · simp [hxy, hyx] at hab
          · by_cases hyz : y.toNat < z.toNat
            · have hxz : x.toNat < z.toNat := by omega
              simp [hxz]
            · by_cases hzy : z.toNat < y.toNat
              · simp [hyz, hzy] at hbc
              · have hx : ¬ x.toNat < z.toNat := by omega
                have hz : ¬ z.toNat < x.toNat := by omega
                simp only [hxy, hyx, if_false] at hab
                simp only [hyz, hzy, if_false] at hbc
                simp only [hx, hz, if_false]
                exact ih bs cs hab hbc

theorem localeCompare_le_iff (a b : String) :
    localeCompare a b ≤ 0 ↔
      charListCompare (lowerChars a) (lowerChars b) ≠ Ordering.gt := by
  unfold localeCompare
  cases charListCompare (lowerChars a) (lowerChars b) <;> simp

theorem groupComparator_le_iff (combos : List Combination) (a b : String) :
    groupComparator combos a b ≤ 0 ↔
      ((groupCombos combos b).length < (groupCombos combos a).length ∨
       ((groupCombos combos a).length = (groupCombos combos b).length ∧
        localeCompare (groupIdeName combos a) (groupIdeName combos b) ≤ 0)) := by
  unfold groupComparator
  by_cases h : ((groupCombos combos b).length : Int) -
      ((groupCombos combos a).length : Int) ≠ 0
  · rw [if_pos h]
    constructor
    · intro hle; left; omega
    · intro hor
      rcases hor with hlt | ⟨heq, _⟩
      · omega
      · omega
  · rw [if_neg h]
    push_neg at h
    constructor
    · intro hle; right; exact ⟨by omega, hle⟩
    · intro hor
      rcases hor with hlt | ⟨_, hle⟩
      · omega
      · exact hle

theorem groupComparator_trans (combos : List Combination) (a b c : String)
    (hab : groupComparator combos a b ≤ 0)
    (hbc : groupComparator combos b c ≤ 0) :
    groupComparator combos a c ≤ 0 := by
  rw [groupComparator_le_iff] at hab hbc ⊢
  rcases hab with h1 | ⟨h1, l1⟩ <;> rcases hbc with h2 | ⟨h2, l2⟩
  · left; omega
  · left; omega
  · left; omega
  · right
    refine ⟨by omega, ?_⟩
    rw [localeCompare_le_iff] at l1 l2 ⊢
    exact clc_ne_gt_trans _ _ _ l1 l2

theorem groupComparator_total (combos : List Combination) (a b : String) :
    groupComparator combos a b ≤ 0 ∨ groupComparator combos b a ≤ 0 := by
  rw [groupComparator_le_iff, groupComparator_le_iff]
  rcases Nat.lt_trichotomy (groupCombos combos a).length
      (groupCombos combos b).length with h | h | h
  · right; left; exact h
  · rcases hcmp : charListCompare (lowerChars (groupIdeName combos a))
        (lowerChars (groupIdeName combos b)) with hlt | heq | hgt
    · left; right
      exact ⟨h, by rw [localeCompare_le_iff, hcmp]; simp⟩
    · left; right
      exact ⟨h, by rw [localeCompare_le_iff, hcmp]; simp⟩
    · right; right
      refine ⟨h.symm, ?_⟩
      rw [localeCompare_le_iff, clc_swap, hcmp]
      simp [Ordering.swap]
  · left; left; exact h

/-- C4: the row-group keys come out of the sort as a permutation of the
groups, pairwise ordered by strictly greater combination count first and,
on equal counts, by non-positive localeCompare of the interface display
names; and on the claim's concrete example the name comparison places
Cursor strictly before VS Code. -/
theorem C4_row_group_sort (combos : List Combination) :
    (sortedGroupKeys combos).Perm (groupKeys combos) ∧
    List.Pairwise
      (fun a b =>
        (groupCombos combos b).length < (groupCombos combos a).length ∨
        ((groupCombos combos a).length = (groupCombos combos b).length ∧
          localeCompare (groupIdeName combos a)
            (groupIdeName combos b) ≤ 0))
      (sortedGroupKeys combos) ∧
    localeCompare "Cursor" "VS Code" < 0 := by
  refine ⟨List.mergeSort_perm _ _, ?_, by decide⟩
  have hs := @List.sorted_mergeSort String
    (fun a b => decide (groupComparator combos a b ≤ 0))
    (fun a b c h1 h2 => by
      rw [decide_eq_true_eq] at h1 h2 ⊢
      exact groupComparator_trans combos a b c h1 h2)
    (fun a b => by
      rw [Bool.or_eq_true, decide_eq_true_eq, decide_eq_true_eq]
      exact groupComparator_total combos a b)
    (groupKeys combos)
  refine List.Pairwise.imp ?_ hs
  intro a b h
  rw [decide_eq_true_eq, groupComparator_le_iff] at h
  exact h

/-- Truthiness of a JS string-or-null value: null, undefined, and the empty
string are falsy. -/
def truthy : Option String → Bool
  | none => false
  | some s => !s.data.isEmpty

/-- showSourceModal line 388: the sources entry of the feature for the
cell's combination key, with the optional chaining on a possibly absent
sources map. -/
def sourceFor (feature : Feature) (comboKey : String) : Option SourceEntry :=
  (feature.sources.getD []).lookup comboKey

/-- showSourceModal line 389: url is null when the source entry is falsy (no
entry, or a bare empty string); otherwise the bare string itself, or the
url field of a structured entry. -/
def sourceUrl (source : Option SourceEntry) : Option String :=
  match source with
  | none => none
  | some (SourceEntry.str s) => if s.data.isEmpty then none else some s
  | some (SourceEntry.obj url _) => url

/-- showSourceModal line 390: evidence is the evidence field when the source
entry is a truthy object, else null. -/
def sourceEvidence (source : Option SourceEntry) : Option String :=
  match source with
  | some (SourceEntry.obj _ evidence) => evidence
  | _ => none

/-- showSourceModal line 387: feature.title with fallback to the feature
identifier when the title is absent or empty. -/
def featureTitle (feature : Feature) (featureId : String) : String :=
  match feature.title with
  | some t => if t.data.isEmpty then featureId else t
  | none => featureId

/-- showSourceModal lines 392-401: the human-readable interface-plus-client
label parsed from the combination key; an unknown identifier falls back to
the identifier itself, and the native sentinel resolves through the
client's per-interface native-name map with a Native fallback. A key
without a separator leaves the client part undefined, which JS renders as
the string undefined. -/
def clientDisplay (ides : List (String × Ide))
    (aiClients : List (String × AIClient)) (comboKey : String) : String :=
  if comboKey.data.isEmpty then comboKey
  else
    let parts := comboKey.splitOn "+"
    let ideId := parts.headD ""
    let ideName := match ides.lookup ideId with
      | some ide => ide.name
      | none => ideId
    let aiName := match parts[1]? with
      | none => "undefined"
      | some aiClientId =>
        match aiClients.lookup aiClientId with
        | some aiClient =>
          if aiClientId = "native" then
            match (aiClient.native_names.getD []).lookup ideId with
            | some nm => if nm.data.isEmpty then "Native" else nm
            | none => "Native"
          else aiClient.name
        | none => aiClientId
    ideName ++ " + " ++ aiName

/-- The populated fields of the source modal (lines 432-463): a none in the
note slot means the note element is hidden; a none in the evidence slot
means the No-evidence-recorded placeholder; a none in the link slot means
the No-source-URL-available placeholder instead of a link. -/
structure ModalContent where
  title : String
  client : String
  note : Option String
  evidenceShown : Option String
  linkShown : Option String
deriving DecidableEq, Repr

/-- The population step of showSourceModal for a resolved feature. -/
def modalContentFor (ides : List (String × Ide))
    (aiClients : List (String × AIClient)) (feature : Feature)
    (featureId comboKey : String) (note : Option String) : ModalContent :=
  let source := sourceFor feature comboKey
  let url := sourceUrl source
  let evidence := sourceEvidence source
  { title := featureTitle feature featureId
    client := clientDisplay ides aiClients comboKey
    note := if truthy note then note else none
    evidenceShown := if truthy evidence then evidence else none
    linkShown := if truthy url then url else none }

/-- The modal's observable state: whether the singleton overlay element has
been created, its populated contents, and whether it is shown. -/
structure ModalState where
  created : Bool
  content : Option ModalContent
  active : Bool
deriving DecidableEq, Repr

/-- app.js showSourceModal, lines 372-467, as a transformer of the modal
state: when the feature identifier does not resolve in the features map the
function returns at line 384, before the modal is created, populated, or
shown; otherwise it ensures the singleton overlay exists, populates it, and
activates it. -/
def showSourceModal (ides : List (String × Ide))
    (aiClients : List (String × AIClient))
    (features : List (String × Feature)) (featureId comboKey : String)
    (note : Option String) (st : ModalState) : ModalState :=
  match features.lookup featureId with
  | none => st
  | some feature =>
    { created := true
      content := some
        (modalContentFor ides aiClients feature featureId comboKey note)
      active := true }

/-- Concrete feature for the C5 counterexample: its sources map holds a
bare URL string that is empty. -/
def featureEmptySource : Feature :=
  ⟨"tools", some "Tools", "https://m", none,
    some [("vscode+cline", SourceEntry.str "")], none⟩

/-- C5 counterexample: for a cell whose sources entry is the bare URL
string that happens to be empty, the opened surface does not show that
literal URL — the empty string is falsy, so the no-source placeholder is
shown instead (linkShown is none, not the literal empty string). -/
theorem C5_bare_url_counterexample :
    sourceFor featureEmptySource "vscode+cline" =
      some (SourceEntry.str "") ∧
    (modalContentFor [] [] featureEmptySource "tools" "vscode+cline"
        none).linkShown = none ∧
    (modalContentFor [] [] featureEmptySource "tools" "vscode+cline"
        none).linkShown ≠ some "" := by
  refine ⟨by decide, by decide, by decide⟩

/-- C5 (amended): when showSourceModal resolves the feature, the populated
surface shows, for a sources entry that is a non-empty bare URL string,
that literal URL together with the no-evidence placeholder; for a
structured entry with non-empty url and evidence, both literal values; and
for a missing sources entry, the no-source placeholder instead of a
link. -/
theorem C5_source_lookup (ides : List (String × Ide))
    (aiClients : List (String × AIClient))
    (features : List (String × Feature)) (featureId comboKey : String)
    (note : Option String) (st : ModalState) (feature : Feature)
    (hfeat : features.lookup featureId = some feature) :
    (showSourceModal ides aiClients features featureId comboKey note
        st).content =
      some (modalContentFor ides aiClients feature featureId comboKey
        note) ∧
    (∀ s : String, sourceFor feature comboKey = some (SourceEntry.str s) →
      s.data ≠ [] →
      (modalContentFor ides aiClients feature featureId comboKey
          note).evidenceShown = none ∧
      (modalContentFor ides aiClients feature featureId comboKey
          note).linkShown = some s) ∧
    (∀ u e : String,
      sourceFor feature comboKey =
        some (SourceEntry.obj (some u) (some e)) →
      u.data ≠ [] → e.data ≠ [] →
      (modalContentFor ides aiClients feature featureId comboKey
          note).evidenceShown = some e ∧
      (modalContentFor ides aiClients feature featureId comboKey
          note).linkShown = some u) ∧
    (sourceFor feature comboKey = none →
      (modalContentFor ides aiClients feature featureId comboKey
          note).evidenceShown = none ∧
      (modalContentFor ides aiClients feature featureId comboKey
          note).linkShown = none) := by
  refine ⟨by simp [showSourceModal, hfeat], ?_, ?_, ?_⟩
  · intro s hsrc hne
    simp [modalContentFor, hsrc, sourceUrl, sourceEvidence, truthy,
      List.isEmpty_iff, hne]
  · intro u e hsrc hu he
    simp [modalContentFor, hsrc, sourceUrl, sourceEvidence, truthy,
      List.isEmpty_iff, hu, he]
  · intro hsrc
    simp [modalContentFor, hsrc, sourceUrl, sourceEvidence, truthy]

/-- C5 witness: the amended theorem applied to a concrete feature whose
sources entry for the key is a structured url-and-evidence record. -/
theorem C5_source_lookup_witness :
    (modalContentFor [] []
        ⟨"tools", some "Tools", "https://m", none,
          some [("vscode+cline",
            SourceEntry.obj (some "https://doc") (some "release note"))],
          none⟩
        "tools" "vscode+cline" none).evidenceShown = some "release note" ∧
    (modalContentFor [] []
        ⟨"tools", some "Tools", "https://m", none,
          some [("vscode+cline",
            SourceEntry.obj (some "https://doc") (some "release note"))],
          none⟩
        "tools" "vscode+cline" none).linkShown = some "https://doc" :=
  (C5_source_lookup [] []
      [("tools",
        ⟨"tools", some "Tools", "https://m", none,
          some [("vscode+cline",
            SourceEntry.obj (some "https://doc") (some "release note"))],
          none⟩)]
      "tools" "vscode+cline" none ⟨false, none, false⟩ _
      (by decide)).2.2.1 "https://doc" "release note" (by decide)
    (by decide) (by decide)

/-- C9: when the feature identifier does not resolve in the loaded features
map, showSourceModal is the identity on the modal state: nothing is
created, populated, or shown, and an existing modal keeps its contents and
visibility. -/
theorem C9_unknown_feature_no_change (ides : List (String × Ide))
    (aiClients : List (String × AIClient))
    (features : List (String × Feature)) (featureId comboKey : String)
    (note : Option String) (st : ModalState)
    (hfeat : features.lookup featureId = none) :
    showSourceModal ides aiClients features featureId comboKey note st =
      st := by
  simp [showSourceModal, hfeat]

/-- C9 witness: the theorem applied to an empty features map and a visible,
populated modal, which is left exactly as it was. -/
theorem C9_unknown_feature_no_change_witness :
    showSourceModal [] [] [] "roots" "vscode+cline" none
        ⟨true, some ⟨"Tools", "x", none, none, none⟩, true⟩ =
      ⟨true, some ⟨"Tools", "x", none, none, none⟩, true⟩ :=
  C9_unknown_feature_no_change [] [] [] "roots" "vscode+cline" none
    ⟨true, some ⟨"Tools", "x", none, none, none⟩, true⟩ (by decide)

/-- Display state of one collapsible row-group in the feature view: the
expanded class on the header row, and the display state of every row
tagged with the group identifier (true means visible). -/
structure GroupView where
  expanded : Bool
  rowsVisible : List Bool
deriving DecidableEq, Repr

/-- renderFeaturesMatrix lines 326-342: the group header is rendered
without the expanded class and every tagged row with display none. -/
def initGroupView (rowCount : Nat) : GroupView :=
  { expanded := false, rowsVisible := List.replicate rowCount false }

/-- app.js toggleGroup, lines 361-369: classList.toggle flips the expanded
class and reports its new presence, and every row tagged with the group
identifier gets its display set from that single flag. -/
def toggleGroup (g : GroupView) : GroupView :=
  let isExpanded := !g.expanded
  { expanded := isExpanded
    rowsVisible := g.rowsVisible.map (fun _ => isExpanded) }

/-- C7: for a collapsible group, visibility is a pure function of the click
count: after n header clicks the expanded flag holds exactly when n is
odd, and every tagged row's display state equals that flag — all visible
after an odd count, none after an even count, including the initial
collapsed render at zero. -/
theorem C7_toggle_parity (rowCount n : Nat) :
    (Nat.iterate toggleGroup n (initGroupView rowCount)).expanded =
      decide (n % 2 = 1) ∧
    (Nat.iterate toggleGroup n (initGroupView rowCount)).rowsVisible =
      List.replicate rowCount (decide (n % 2 = 1)) := by
  induction n with
  | zero => simp [initGroupView]
  | succ n ih =>
    rw [Function.iterate_succ_apply']
    have hpar : decide ((n + 1) % 2 = 1) = !decide (n % 2 = 1) := by
      rcases Nat.mod_two_eq_zero_or_one n with h | h <;>
        simp [Nat.add_mod, h]
    rw [hpar]
    constructor
    · simp [toggleGroup, ih.1]
    · rw [show (toggleGroup (Nat.iterate toggleGroup n
          (initGroupView rowCount))).rowsVisible =
          (Nat.iterate toggleGroup n (initGroupView rowCount)).rowsVisible.map
            (fun _ => !(Nat.iterate toggleGroup n
              (initGroupView rowCount)).expanded) from rfl]
      rw [ih.1, ih.2, List.map_replicate]

/-- app.js toggleNote, lines 478-486, on the indexed list of shown flags of
the plugin-availability cells: first every other cell's shown flag is
cleared, then the clicked cell's flag is toggled. The j argument is the
index of the cell the traversal is at. -/
def toggleNoteAux (i : Nat) : Nat → List Bool → List Bool
  | _, [] => []
  | j, shown :: rest =>
    (if j = i then !shown else false) :: toggleNoteAux i (j + 1) rest

def toggleNote (i : Nat) (cells : List Bool) : List Bool :=
  toggleNoteAux i 0 cells

/-- The document-level click listener, lines 489-493: clear the shown flag
of every cell. -/
def clearAllNotes (cells : List Bool) : List Bool :=
  cells.map (fun _ => false)

/-- A click event in the plugin-availability view: a click on a note cell
(whose handler calls event.stopPropagation() at line 479, so the document
listener does not also run) or a document-level click elsewhere. -/
inductive NoteEvent where
  | cellClick (i : Nat)
  | documentClick
deriving DecidableEq, Repr

def noteStep (cells : List Bool) : NoteEvent → List Bool
  | NoteEvent.cellClick i => toggleNote i cells
  | NoteEvent.documentClick => clearAllNotes cells

def runNoteEvents (events : List NoteEvent) (cells : List Bool) :
    List Bool :=
  events.foldl noteStep cells

def countShown (cells : List Bool) : Nat := (cells.filter id).length

theorem countShown_cons (b : Bool) (l : List Bool) :
    countShown (b :: l) = (if b then 1 else 0) + countShown l := by
  cases b <;> simp [countShown, List.filter_cons, Nat.add_comm]

theorem countShown_toggleNoteAux_of_lt (i : Nat) :
    ∀ (cells : List Bool) (j : Nat), i < j →
      countShown (toggleNoteAux i j cells) = 0 := by
  intro cells
  induction cells with
  | nil => intro j _; rfl
  | cons shown rest ih =>
    intro j hij
    have hne : ¬ j = i := by omega
    simp only [toggleNoteAux, hne, if_false]
    rw [countShown_cons, ih (j + 1) (by omega)]
    simp

theorem countShown_toggleNoteAux_le (i : Nat) :
    ∀ (cells : List Bool) (j : Nat),
      countShown (toggleNoteAux i j cells) ≤ 1 := by
  intro cells
  induction cells with
  | nil => intro j; simp [toggleNoteAux, countShown]
  | cons shown rest ih =>
    intro j
    by_cases hj : j = i
    · simp only [toggleNoteAux, if_pos hj]
      rw [countShown_cons,
        countShown_toggleNoteAux_of_lt i rest (j + 1) (by omega)]
      cases hsh : !shown <;> simp [hsh]
    · simp only [toggleNoteAux, hj, if_false]
      rw [countShown_cons]
      have := ih (j + 1)
      simpa using this

theorem countShown_noteStep_le (cells : List Bool) (e : NoteEvent) :
    countShown (noteStep cells e) ≤ 1 := by
  cases e with
  | cellClick i => exact countShown_toggleNoteAux_le i cells 0
  | documentClick => simp [noteStep, clearAllNotes, countShown]

theorem countShown_foldl_le (events : List NoteEvent) :
    ∀ cells : List Bool, countShown cells ≤ 1 →
      countShown (events.foldl noteStep cells) ≤ 1 := by
  induction events with
  | nil => intro cells h; simpa using h
  | cons e es ih =>
    intro cells h
    rw [List.foldl_cons]
    exact ih (noteStep cells e) (countShown_noteStep_le cells e)

theorem toggleNoteAux_get (i : Nat) :
    ∀ (cells : List Bool) (j k : Nat),
      (toggleNoteAux i j cells).get? k =
        if j + k = i then (cells.get? k).map (fun b => !b)
        else (cells.get? k).map (fun _ => false) := by
  intro cells
  induction cells with
  | nil => intro j k; simp [toggleNoteAux]
  | cons shown rest ih =>
    intro j k
    cases k with
    | zero =>
      by_cases hj : j = i <;> simp [toggleNoteAux, hj]
    | succ k =>
      have := ih (j + 1) k
      have harith : j + 1 + k = j + (k + 1) := by omega
      simp only [toggleNoteAux, List.get?]
      rw [this, harith]

/-- C8: in the plugin-availability view, after any sequence of cell clicks
and document clicks from the initial all-hidden state at most one cell is
in the shown state; a cell click clears every other cell (and only flips
the clicked one), and a document-level click clears all; a cell click does
not additionally run the document handler. -/
theorem C8_tooltip_exclusive (events : List NoteEvent) (k : Nat) :
    countShown (runNoteEvents events (List.replicate k false)) ≤ 1 ∧
    (∀ (cells : List Bool) (i j : Nat), j ≠ i →
      (toggleNote i cells).get? j = (cells.get? j).map (fun _ => false)) ∧
    (∀ (cells : List Bool) (i : Nat),
      (toggleNote i cells).get? i = (cells.get? i).map (fun b => !b)) ∧
    (∀ cells : List Bool, countShown (clearAllNotes cells) = 0) := by
  refine ⟨?_, ?_, ?_, ?_⟩
  · refine countShown_foldl_le events (List.replicate k false) ?_
    simp [countShown]
  · intro cells i j hji
    have h := toggleNoteAux_get i cells 0 j
    simp only [Nat.zero_add] at h
    rw [if_neg hji] at h
    exact h
  · intro cells i
    have h := toggleNoteAux_get i cells 0 i
    rw [if_pos (by omega)] at h
    exact h
  · intro cells
    simp [clearAllNotes, countShown]

/-- C8 witness: the per-click clearing conjunct applied to a concrete state
with two shown cells — after clicking cell zero, cell one is cleared. -/
theorem C8_tooltip_exclusive_witness :
    (toggleNote 0 [true, true]).get? 1 =
      ([true, true].get? 1).map (fun _ => false) :=
  (C8_tooltip_exclusive [] 0).2.1 [true, true] 0 1 (by decide)

/-- One entry of the SUPPORT_ICONS table: glyph, css class, and title. -/
structure IconInfo where
  icon : String
  cssClass : String
  title : String
deriving DecidableEq, Repr

/-- SUPPORT_ICONS, app.js lines 12-18, keyed by support-code character. -/
def SUPPORT_ICONS : List (Char × IconInfo) :=
  [('y', ⟨"&#10003;", "support-y", "Supported"⟩),
   ('a', ⟨"~", "support-a", "Partial support"⟩),
   ('n', ⟨"&#10005;", "support-n", "Not supported"⟩),
   ('u', ⟨"?", "support-u", "Unknown"⟩),
   ('d', ⟨"&#9881;", "support-a", "Disabled by default"⟩)]

/-- renderSupportCell line 126: SUPPORT_ICONS[code] with the fallback
SUPPORT_ICONS.u when the keyed lookup misses. -/
def iconFor (code : Char) : IconInfo :=
  match SUPPORT_ICONS.lookup code with
  | some info => info
  | none => ⟨"?", "support-u", "Unknown"⟩

/-- C10: the fallback branch of the icon lookup in renderSupportCell is
unreachable — for every input (absent, empty, conforming or not),
parseSupport returns a code that is a key of SUPPORT_ICONS, so the keyed
lookup always succeeds and the rendered icon is its direct result. -/
theorem C10_icon_fallback_unreachable (value : Option String) :
    (SUPPORT_ICONS.lookup (parseSupport value).code).isSome = true ∧
    some (iconFor (parseSupport value).code) =
      SUPPORT_ICONS.lookup (parseSupport value).code := by
  have hcode : isSupportCode (parseSupport value).code = true := by
    have hmain : parseSupport value = ⟨'u', none⟩ ∨
        ∃ s, value = some s ∧ s.data ≠ [] ∧
          parseSupport value = parseSupportChars s.data := by
      cases value with
      | none => exact Or.inl rfl
      | some s =>
        rcases eq_or_ne s.data [] with h | h
        · exact Or.inl (by simp [parseSupport, h])
        · exact Or.inr ⟨s, rfl, h, parseSupport_eq_chars s h⟩
    rcases hmain with h | ⟨s, _, _, heq⟩
    · rw [h]; decide
    · rw [heq]
      rcases parseSupportChars_cases s.data with h1 | ⟨c, ws, _, hc, _, h1⟩ |
        ⟨c, ws, ds, _, hc, _, _, _, h1⟩
      · rw [h1]; decide
      · rw [h1]; exact hc
      · rw [h1]; exact hc
  rw [isSupportCode_iff] at hcode
  rcases hcode with h | h | h | h | h <;> rw [h] <;> exact ⟨by decide, by decide⟩

end McpIUse
